import Mathlib

set_option maxRecDepth 4000

/-!
Shallow embedding of `src/update_repo.py`, a script that regenerates the
`Packages` index of a flat Debian-style package repository and refreshes the
MD5 checksum block of its `Release` manifest.

Python strings are modelled as lists of characters (`Str`), Python byte
strings as lists of naturals.  The MD5 digest and the bz2 compressor are
external library routines; they enter the model as explicit function
parameters, so every theorem below is quantified over them.
-/

namespace UpdateRepo

instance {ε α : Type} [DecidableEq ε] [DecidableEq α] : DecidableEq (Except ε α) := fun x y =>
  match x, y with
  | .error a, .error b =>
    if h : a = b then isTrue (by rw [h]) else isFalse (fun he => by cases he; exact h rfl)
  | .error _, .ok _ => isFalse (fun he => by cases he)
  | .ok _, .error _ => isFalse (fun he => by cases he)
  | .ok a, .ok b =>
    if h : a = b then isTrue (by rw [h]) else isFalse (fun he => by cases he; exact h rfl)

/-- Python strings are modelled as lists of characters. -/
abbrev Str := List Char

/-- Coercion of a Lean string literal into the model type. -/
def str (s : String) : Str := s.data

/-- Characters at which Python `str.splitlines` breaks a line. -/
def isLineBoundary (c : Char) : Bool :=
  ([10, 11, 12, 13, 0x1c, 0x1d, 0x1e, 0x85, 0x2028, 0x2029] : List Nat).contains c.toNat

/-- Characters for which Python `str.isspace` holds; this is also the set
stripped by `str.strip()`. -/
def pyIsSpace (c : Char) : Bool :=
  ([9, 10, 11, 12, 13, 0x1c, 0x1d, 0x1e, 0x1f, 32, 0x85, 0xa0, 0x1680,
    0x2000, 0x2001, 0x2002, 0x2003, 0x2004, 0x2005, 0x2006, 0x2007, 0x2008,
    0x2009, 0x200a, 0x2028, 0x2029, 0x202f, 0x205f, 0x3000] : List Nat).contains c.toNat

/-- Python `s.strip()`: removes leading and trailing whitespace. -/
def pyStrip (s : Str) : Str :=
  ((s.dropWhile pyIsSpace).reverse.dropWhile pyIsSpace).reverse

/-- Helper for `pySplitlines`: splits at every line boundary, treating a
`'\r''\n'` pair as a single boundary, and always yields a (possibly empty)
final line. -/
def splitlinesAux : Str → List Str
  | [] => [[]]
  | '\r' :: '\n' :: rest => [] :: splitlinesAux rest
  | '\r' :: rest => [] :: splitlinesAux rest
  | c :: rest =>
    if isLineBoundary c then
      [] :: splitlinesAux rest
    else
      match splitlinesAux rest with
      | [] => [[c]]
      | l :: ls => (c :: l) :: ls

/-- Removes the last element of a line list when it is empty: a trailing
line terminator produces no extra line in Python `splitlines`. -/
def trimLast : List Str → List Str
  | [] => []
  | [l] => if l = [] then [] else [l]
  | l :: ls => l :: trimLast ls

/-- Python `s.splitlines()`. -/
def pySplitlines (s : Str) : List Str := trimLast (splitlinesAux s)

/-- Python `s.split(sep)` for a one-character separator `c`: splits at every
occurrence, always returning at least one (possibly empty) part. -/
def splitOnChar (c : Char) : Str → List Str
  | [] => [[]]
  | a :: rest =>
    if a = c then
      [] :: splitOnChar c rest
    else
      match splitOnChar c rest with
      | [] => [[a]]
      | l :: ls => (a :: l) :: ls

/-- Python `"\n".join(lines)`. -/
def nlJoin : List Str → Str
  | [] => []
  | [l] => l
  | l :: ls => l ++ '\n' :: nlJoin ls

/-- Python `"".join(parts)`. -/
def strJoin (parts : List Str) : Str := parts.foldr (fun a b => a ++ b) []

/-- Python `str(n)` for a natural number. -/
def natStr (n : Nat) : Str := (Nat.repr n).data

/-- UTF-8 encoding of a single code point. -/
def utf8Bytes (n : Nat) : List Nat :=
  if n < 0x80 then [n]
  else if n < 0x800 then
    [0xc0 + n / 64, 0x80 + n % 64]
  else if n < 0x10000 then
    [0xe0 + n / 4096, 0x80 + n / 64 % 64, 0x80 + n % 64]
  else
    [0xf0 + n / 262144, 0x80 + n / 4096 % 64, 0x80 + n / 64 % 64, 0x80 + n % 64]

/-- Python `s.encode("utf-8")`, as a list of byte values. -/
def utf8Encode (s : Str) : List Nat :=
  s.foldr (fun c acc => utf8Bytes c.toNat ++ acc) []

/-- Python `pathlib.Path(name).suffix`: the extension of the final path
component (the last dot must be at an index `i` with `0 < i < len - 1`). -/
def pySuffix (name : Str) : Str :=
  match name.reverse.findIdx? (fun c => decide (c = '.')) with
  | none => []
  | some j =>
    let i := name.length - 1 - j
    if 0 < i ∧ i < name.length - 1 then name.drop i else []

/-- Strict lexicographic order on strings by code point, as Python compares
strings. -/
def strLt : Str → Str → Bool
  | _, [] => false
  | [], _ :: _ => true
  | a :: as, b :: bs => decide (a < b) || (decide (a = b) && strLt as bs)

/-- Python `<=` on strings. -/
def strLe (a b : Str) : Bool := !strLt b a

/-- One parsed control field: key and value. -/
abbrev Field := Str × Str

/-- Model of the field-parsing loop of `extract_control_fields`
(src/update_repo.py lines 29-42).  The `last` argument mirrors the Python
variable `last`; note that line 41 appends `tuple(last)`, an immutable
snapshot, so the later in-place update of `last` (line 35) never reaches the
returned list, which the immutable pairs here reproduce exactly. -/
def parseCore : List Str → Option Field → List Field
  | [], _ => []
  | l :: rest, last =>
    if l = [] then parseCore rest last
    else if pyIsSpace (l.headD ' ') ∧ last.isSome then
      parseCore rest (last.map (fun kv => (kv.1, kv.2 ++ '\n' :: l)))
    else if ':' ∈ l then
      let k := pyStrip (l.takeWhile (fun c => decide (c ≠ ':')))
      let v := pyStrip ((l.dropWhile (fun c => decide (c ≠ ':'))).tail)
      (k, v) :: parseCore rest (some (k, v))
    else parseCore rest last

/-- Field parser of `extract_control_fields` applied to a decoded control
file text (lines 29-42). -/
def parseControl (text : Str) : List Field := parseCore (pySplitlines text) none

/-- One member of the control tarball, as `tarfile` reports it: its name,
whether it is a regular file, and its decoded content. -/
structure TarMember where
  name : Str
  isFile : Bool
  content : Str
deriving DecidableEq

/-- Model of a `.deb` ar archive as seen through the external `ar` tool:
`listing` is the `ar t` output, and `tars` maps a member name to the parsed
tar member list that `ar p` plus `tarfile.open` would yield for it.  The
choice of decompression mode (lines 17-21) lives below this abstraction. -/
structure DebArchive where
  listing : List Str
  tars : List (Str × List TarMember)
deriving DecidableEq

/-- Python `name.split("/")[-1]` (line 24). -/
def lastComponent (name : Str) : Str := (splitOnChar '/' name).getLastD []

/-- Model of `extract_control_fields` (lines 10-42): selects the first
`control.tar.*` member of the ar listing, then the first regular-file tar
member named `control`, and parses its fields.  `RuntimeError` becomes
`Except.error`. -/
def extractControlFields (deb : DebArchive) : Except Str (List Field) :=
  match deb.listing.find? (fun n => (str "control.tar.").isPrefixOf n) with
  | none => .error (str "No control.tar.* found")
  | some cm =>
    let members := ((deb.tars.find? (fun p => decide (p.1 = cm))).map Prod.snd).getD []
    match members.find? (fun m => m.isFile && decide (lastComponent m.name = str "control")) with
    | none => .error (str "control file not found")
    | some mem => .ok (parseControl mem.content)

/-- Keys that `format_entry` removes from the extracted fields (line 45). -/
def fsmKeys : List Str := [str "Filename", str "Size", str "MD5sum"]

/-- Field list built by `format_entry` before rendering (lines 45-48). -/
def formatEntryFields (entries : List Field) (filename : Str) (size : Nat)
    (md5hex : Str) : List Field :=
  entries.filter (fun kv => decide (kv.1 ∉ fsmKeys)) ++
    [(str "Filename", filename), (str "Size", natStr size), (str "MD5sum", md5hex)]

/-- Lines contributed by one field in `format_entry`'s rendering loop
(lines 50-57): the first line of the value follows the key, any remaining
lines are emitted unchanged. -/
def fieldLines (kv : Field) : List Str :=
  match splitOnChar '\n' kv.2 with
  | [] => []
  | p :: ps => (kv.1 ++ str ": " ++ p) :: ps

/-- Model of `format_entry` (lines 44-58). -/
def formatEntry (entries : List Field) (filename : Str) (size : Nat)
    (md5hex : Str) : Str :=
  nlJoin ((formatEntryFields entries filename size md5hex).flatMap fieldLines) ++ str "\n\n"

/-- One directory entry of the `debs` directory: its file name, its bytes,
and its view as an ar archive. -/
structure DebFile where
  name : Str
  archive : DebArchive
  data : List Nat
deriving DecidableEq

/-- Ordering by which Python `sorted` arranges the deb paths (all share the
parent directory, so they compare by name). -/
def debLe (a b : DebFile) : Prop := strLe a.name b.name = true

instance : DecidableRel debLe := fun a b => by unfold debLe; infer_instance

/-- Iteration order of `build_packages` (line 63): the directory entries
whose suffix is `.deb`, sorted (insertion sort is stable, like Python's). -/
def sortedDebs (dir : List DebFile) : List DebFile :=
  List.insertionSort debLe (dir.filter (fun f => decide (pySuffix f.name = str ".deb")))

/-- Index entry contributed by one deb (lines 64-69). -/
def debEntry (md5 : List Nat → Str) (cf : List Field) (f : DebFile) : Str :=
  formatEntry cf (str "debs/" ++ f.name) f.data.length (md5 f.data)

/-- Model of `build_packages` (lines 61-70), parameterised by the MD5 hex
digest function over byte lists. -/
def buildPackages (dir : List DebFile) (md5 : List Nat → Str) : Except Str Str :=
  ((sortedDebs dir).mapM
    (fun f => (extractControlFields f.archive).map (fun cf => debEntry md5 cf f))).map strJoin

/-- Header scan of `update_release` (lines 79-86): every line up to and
including the first whose stripped text is `MD5Sum:`; when no line matches,
a bare `MD5Sum:` is appended (the for-else branch). -/
def buildHeader : List Str → List Str
  | [] => [str "MD5Sum:"]
  | l :: rest => if pyStrip l = str "MD5Sum:" then [l] else l :: buildHeader rest

/-- Python `list.index` (line 88): index of the first exact occurrence, with
`none` modelling the `ValueError` it raises when the element is absent. -/
def idxOfExact (target : Str) : List Str → Option Nat
  | [] => none
  | l :: rest => if l = target then some 0 else (idxOfExact target rest).map (fun i => i + 1)

/-- Checksum line for `Packages` written by `update_release` (line 90): MD5
of the UTF-8 encoded content and the byte count of that encoding. -/
def pkgLine (packagesContent : Str) (md5 : List Nat → Str) : Str :=
  str " " ++ md5 (utf8Encode packagesContent) ++ str " " ++
    natStr (utf8Encode packagesContent).length ++ str " Packages"

/-- Checksum line for `Packages.bz2` written by `update_release` (line 91):
MD5 of the file bytes and their count (`stat().st_size`). -/
def bz2Line (bz2Bytes : List Nat) (md5 : List Nat → Str) : Str :=
  str " " ++ md5 bz2Bytes ++ str " " ++ natStr bz2Bytes.length ++ str " Packages.bz2"

/-- New checksum block written by `update_release` (lines 89-92). -/
def mdBlock (packagesContent : Str) (bz2Bytes : List Nat) (md5 : List Nat → Str) : Str :=
  pkgLine packagesContent md5 ++ str "\n" ++ bz2Line bz2Bytes md5 ++ str "\n"

/-- Model of `update_release` (lines 72-93).  `bz2Bytes` is the content of
the `Packages.bz2` file (`read_bytes`; its length is `stat().st_size`); the
result is the rewritten `Release` text, with `none` modelling the uncaught
`ValueError` of line 88. -/
def updateRelease (releaseText packagesContent : Str) (bz2Bytes : List Nat)
    (md5 : List Nat → Str) : Option Str :=
  let header := buildHeader (pySplitlines releaseText)
  match idxOfExact (str "MD5Sum:") header with
  | none => none
  | some i => some (nlJoin (header.take i) ++ str "\nMD5Sum:\n" ++ mdBlock packagesContent bz2Bytes md5)

/-- Files written by one run of `main`: the bytes of `Packages`, the bytes
of `Packages.bz2`, and the rewritten `Release` text. -/
structure MainOut where
  packagesBytes : List Nat
  packagesBz2Bytes : List Nat
  releaseText : Str
deriving DecidableEq

/-- Model of `main` (lines 95-120) after argument parsing: builds the index,
writes `Packages` (the UTF-8 bytes of the content, line 109), writes
`Packages.bz2` (the bz2 compressor applied to those same bytes, line 110),
and rewrites `Release` (line 115).  The compressor is a parameter. -/
def runMain (dir : List DebFile) (releaseText : Str) (md5 : List Nat → Str)
    (compress : List Nat → List Nat) : Except Str MainOut :=
  match buildPackages dir md5 with
  | .error e => .error e
  | .ok pc =>
    let pBytes := utf8Encode pc
    let bzBytes := compress pBytes
    match updateRelease releaseText pc bzBytes md5 with
    | none => .error (str "ValueError")
    | some rel => .ok (MainOut.mk pBytes bzBytes rel)

end UpdateRepo

namespace UpdateRepo

def sampleArchive : DebArchive :=
  DebArchive.mk [str "debian-binary", str "control.tar.gz", str "data.tar.gz"]
    [(str "control.tar.gz", [TarMember.mk (str "./control") true (str "Package: foo\nVersion: 1.0\n")])]

def sampleDir : List DebFile :=
  [DebFile.mk (str "b.deb") sampleArchive [1, 2], DebFile.mk (str "a.deb") sampleArchive [7], DebFile.mk (str "x.txt") sampleArchive [9]]

end UpdateRepo

namespace UpdateRepo

/-- Text with no line-boundary character: `splitlines` keeps it in one line. -/
def noB (s : Str) : Prop := ∀ c ∈ s, isLineBoundary c = false

instance (s : Str) : Decidable (noB s) := by unfold noB; infer_instance

/-- Rendered line of a field whose value stays on one line. -/
def renderLine (kv : Field) : Str := kv.1 ++ str ": " ++ kv.2

/-- Conditions on a key under which its rendered line parses back exactly. -/
def goodKey (k : Str) : Prop := k ≠ [] ∧ pyStrip k = k ∧ ':' ∉ k ∧ noB k

/-- Conditions on a value under which its rendered line parses back exactly. -/
def goodVal (v : Str) : Prop := pyStrip v = v ∧ noB v

instance (k : Str) : Decidable (goodKey k) := by unfold goodKey; infer_instance

instance (v : Str) : Decidable (goodVal v) := by unfold goodVal; infer_instance

/-- MD5 stub used by concrete witnesses: every byte list digests to "d". -/
def md5c : List Nat → Str := fun _ => str "d"

/-- MD5 stub used by concrete witnesses: the digest of a byte list is the
decimal rendering of its length. -/
def md5len : List Nat → Str := fun bs => natStr bs.length

/-- Control fields of the sample archive, as a function for the witnesses. -/
def sampleCtrl : DebFile → List Field :=
  fun _ => [(str "Package", str "foo"), (str "Version", str "1.0")]

/-- Sample deb file used by the witnesses. -/
def sampleA : DebFile := DebFile.mk (str "a.deb") sampleArchive [7]

/-- Compressor stub used by the C6 witness. -/
def sampleCompress : List Nat → List Nat := fun bs => 0 :: bs

/-- Result of the sample run of `main` used by the C6 witness. -/
def sampleMainOut : MainOut :=
  (runMain sampleDir (str "Origin: X\nMD5Sum:\n") md5len sampleCompress).toOption.getD
    (MainOut.mk [] [] [])



theorem sanity1 : parseControl (str "Package: foo\nVersion: 1.0\n") =
    [(str "Package", str "foo"), (str "Version", str "1.0")] := by decide
theorem sanity2 : parseControl (str "A: x\n y\nB: z") =
    [(str "A", str "x"), (str "B", str "z")] := by decide
theorem sanity3 : formatEntry [(str "Package", str "foo"), (str "Size", str "9")]
    (str "debs/a.deb") 3 (str "d41d") =
    str "Package: foo\nFilename: debs/a.deb\nSize: 3\nMD5sum: d41d\n\n" := by decide
theorem sanity4 : updateRelease (str "Origin: X\nMD5Sum:\n old junk\n") (str "P") [5]
    (fun _ => str "h") =
    some (str "Origin: X\nMD5Sum:\n h 1 Packages\n h 1 Packages.bz2\n") := by decide
theorem sanity5 : pySplitlines (str "a\n\nb\nc") = [str "a", str "", str "b", str "c"] := by decide
theorem sanity6 : pySplitlines (str "a\r\nb\n") = [str "a", str "b"] := by decide
theorem sanity7 : pySplitlines (str "") = [] := by decide
theorem sanity8 : pySplitlines (str "\n") = [str ""] := by decide
theorem sanity9 : splitOnChar '\n' (str "a\nb\n") = [str "a", str "b", str ""] := by decide
theorem sanity10 : pyStrip (str "  a b \t") = str "a b" := by decide
theorem sanity11 : pySuffix (str "foo.deb") = str ".deb" := by decide
theorem sanity12 : pySuffix (str ".deb") = [] := by decide
theorem sanity13 : pySuffix (str "foo.") = [] := by decide
theorem sanity14 : natStr 35 = str "35" := by decide
theorem sanity15 : strLt (str "a") (str "ab") = true := by decide
theorem sanity16 : strLe (str "b") (str "ab") = false := by decide
theorem sanity17 : utf8Encode (str "aé") = [97, 0xc3, 0xa9] := by decide

theorem sanity18 : extractControlFields sampleArchive = .ok [(str "Package", str "foo"), (str "Version", str "1.0")] := by decide

theorem sanity19 : buildPackages sampleDir (fun bs => natStr bs.length) =
    .ok (str "Package: foo\nVersion: 1.0\nFilename: debs/a.deb\nSize: 1\nMD5sum: 1\n\nPackage: foo\nVersion: 1.0\nFilename: debs/b.deb\nSize: 2\nMD5sum: 2\n\n") := by decide

theorem sanity20 : runMain sampleDir (str "Origin: X\nMD5Sum:\n") (fun bs => natStr bs.length) (fun bs => 0 :: bs) =
    .ok (MainOut.mk (utf8Encode (str "Package: foo\nVersion: 1.0\nFilename: debs/a.deb\nSize: 1\nMD5sum: 1\n\nPackage: foo\nVersion: 1.0\nFilename: debs/b.deb\nSize: 2\nMD5sum: 2\n\n")) (0 :: utf8Encode (str "Package: foo\nVersion: 1.0\nFilename: debs/a.deb\nSize: 1\nMD5sum: 1\n\nPackage: foo\nVersion: 1.0\nFilename: debs/b.deb\nSize: 2\nMD5sum: 2\n\n")) (str "Origin: X\nMD5Sum:\n 132 132 Packages\n 133 133 Packages.bz2\n")) := by decide

theorem strLt_trans {a b c : Str} (h1 : strLt a b = true) (h2 : strLt b c = true) :
    strLt a c = true := by
  induction a generalizing b c with
  | nil =>
    cases c with
    | nil =>
      cases b with
      | nil => exact h1
      | cons bh bt => simp [strLt] at h2
    | cons ch ct => rfl
  | cons ah at' ih =>
    cases b with
    | nil => simp [strLt] at h1
    | cons bh bt =>
      cases c with
      | nil => simp [strLt] at h2
      | cons ch ct =>
        simp only [strLt, Bool.or_eq_true, Bool.and_eq_true, decide_eq_true_eq] at h1 h2 ⊢
        rcases h1 with h1 | ⟨rfl, h1⟩
        · rcases h2 with h2 | ⟨rfl, h2⟩
          · exact Or.inl (lt_trans h1 h2)
          · exact Or.inl h1
        · rcases h2 with h2 | ⟨rfl, h2⟩
          · exact Or.inl h2
          · exact Or.inr ⟨rfl, ih h1 h2⟩

theorem strLt_asymm {a b : Str} (h : strLt a b = true) : strLt b a = false := by
  induction a generalizing b with
  | nil =>
    cases b with
    | nil => simp [strLt] at h
    | cons bh bt => rfl
  | cons ah at' ih =>
    cases b with
    | nil => simp [strLt] at h
    | cons bh bt =>
      simp only [strLt, Bool.or_eq_true, Bool.and_eq_true, decide_eq_true_eq] at h
      simp only [strLt, Bool.or_eq_false_iff, Bool.and_eq_false_iff, decide_eq_false_iff_not]
      rcases h with h | ⟨rfl, h⟩
      · exact ⟨not_lt_of_lt h, Or.inl (fun he => absurd he (ne_of_gt h))⟩
      · exact ⟨lt_irrefl ah, Or.inr (by simp [ih h])⟩

theorem strLt_connex {a b : Str} (h1 : strLt a b = false) (h2 : strLt b a = false) :
    a = b := by
  induction a generalizing b with
  | nil =>
    cases b with
    | nil => rfl
    | cons bh bt => simp [strLt] at h1
  | cons ah at' ih =>
    cases b with
    | nil => simp [strLt] at h2
    | cons bh bt =>
      simp only [strLt, Bool.or_eq_false_iff, Bool.and_eq_false_iff,
        decide_eq_false_iff_not] at h1 h2
      obtain ⟨hab, h1r⟩ := h1
      obtain ⟨hba, h2r⟩ := h2
      have heq : ah = bh := le_antisymm (not_lt.mp hba) (not_lt.mp hab)
      subst heq
      rcases h1r with h | h
      · exact absurd rfl h
      · rcases h2r with h2 | h2
        · exact absurd rfl h2
        · rw [ih h h2]

theorem strLe_total (a b : Str) : strLe a b = true ∨ strLe b a = true := by
  by_cases h : strLt b a = true
  · right; unfold strLe; rw [strLt_asymm h]; rfl
  · left; unfold strLe; rw [Bool.not_eq_true] at h; rw [h]; rfl

theorem strLe_trans {a b c : Str} (h1 : strLe a b = true) (h2 : strLe b c = true) :
    strLe a c = true := by
  unfold strLe at h1 h2 ⊢
  rw [Bool.not_eq_true'] at h1 h2 ⊢
  by_contra hca
  rw [Bool.not_eq_false] at hca
  by_cases hbc : strLt b c = true
  · exact absurd (strLt_trans hbc hca) (by rw [h1]; intro h; cases h)
  · rw [Bool.not_eq_true] at hbc
    rw [strLt_connex h2 hbc] at hca
    rw [h1] at hca
    cases hca

instance : IsTotal DebFile debLe :=
  ⟨fun a b => strLe_total a.name b.name⟩

instance : IsTrans DebFile debLe :=
  ⟨fun _ _ _ h1 h2 => strLe_trans h1 h2⟩

end UpdateRepo


namespace UpdateRepo

theorem splitlinesAux_rn (rest : Str) :
    splitlinesAux ('\r' :: '\n' :: rest) = [] :: splitlinesAux rest := rfl

theorem splitlinesAux_r {rest : Str} (h : ∀ r2, rest ≠ '\n' :: r2) :
    splitlinesAux ('\r' :: rest) = [] :: splitlinesAux rest := by
  cases rest with
  | nil => rfl
  | cons d r =>
    have hd : d ≠ '\n' := fun he => h r (by rw [he])
    simp [splitlinesAux, hd]

theorem splitlinesAux_bnd {c : Char} (hc : isLineBoundary c = true) (hcr : c ≠ '\r')
    (rest : Str) : splitlinesAux (c :: rest) = [] :: splitlinesAux rest := by
  cases rest with
  | nil => simp [splitlinesAux, hcr, hc]
  | cons d r => simp [splitlinesAux, hcr, hc]

theorem splitlinesAux_cons_nb {c : Char} (hc : isLineBoundary c = false) (s : Str) :
    splitlinesAux (c :: s) =
      (match splitlinesAux s with
       | [] => [[c]]
       | l :: ls => (c :: l) :: ls) := by
  have hcr : c ≠ '\r' := by
    intro h
    rw [h] at hc
    simp [isLineBoundary] at hc
  cases s with
  | nil => simp [splitlinesAux, hcr, hc]
  | cons d rest => simp [splitlinesAux, hcr, hc]

theorem splitlinesAux_ne_nil (s : Str) : splitlinesAux s ≠ [] := by
  induction s using splitlinesAux.induct with
  | case1 => simp [splitlinesAux]
  | case2 rest ih => rw [splitlinesAux_rn]; simp
  | case3 rest h1 ih => rw [splitlinesAux_r (fun r2 hr => h1 r2 hr)]; simp
  | case4 c rest h1 h2 hc ih => rw [splitlinesAux_bnd hc (fun he => h2 he)]; simp
  | case5 c rest h1 h2 hc hrest ih => exact absurd hrest ih
  | case6 c rest h1 h2 hc l ls hrest ih =>
    have hc2 : isLineBoundary c = false := by simpa using hc
    rw [splitlinesAux_cons_nb hc2, hrest]
    simp

theorem splitlinesAux_line_append {l : Str} (hl : noB l) (s : Str) :
    splitlinesAux (l ++ '\n' :: s) = l :: splitlinesAux s := by
  induction l with
  | nil => rfl
  | cons c t ih =>
    have hc : isLineBoundary c = false := hl c (List.mem_cons_self c t)
    have ht : noB t := fun d hd => hl d (List.mem_cons_of_mem c hd)
    rw [List.cons_append, splitlinesAux_cons_nb hc, ih ht]

theorem noB_of_mem_splitlinesAux {s l : Str} (h : l ∈ splitlinesAux s) : noB l := by
  induction s using splitlinesAux.induct generalizing l with
  | case1 =>
    simp [splitlinesAux] at h
    subst h
    intro c hc
    cases hc
  | case2 rest ih =>
    rw [splitlinesAux_rn] at h
    rcases List.mem_cons.mp h with h | h
    · subst h; intro c hc; cases hc
    · exact ih h
  | case3 rest h1 ih =>
    rw [splitlinesAux_r (fun r2 hr => h1 r2 hr)] at h
    rcases List.mem_cons.mp h with h | h
    · subst h; intro c hc; cases hc
    · exact ih h
  | case4 c rest h1 h2 hc ih =>
    rw [splitlinesAux_bnd hc (fun he => h2 he)] at h
    rcases List.mem_cons.mp h with h | h
    · subst h; intro d hd; cases hd
    · exact ih h
  | case5 c rest h1 h2 hc hrest ih => exact absurd hrest (splitlinesAux_ne_nil rest)
  | case6 c rest h1 h2 hc l0 ls hrest ih =>
    have hc2 : isLineBoundary c = false := by simpa using hc
    rw [splitlinesAux_cons_nb hc2, hrest] at h
    rcases List.mem_cons.mp h with h | h
    · subst h
      intro d hd
      rcases List.mem_cons.mp hd with hd | hd
      · subst hd; exact hc2
      · exact ih (hrest ▸ List.mem_cons_self l0 ls) d hd
    · exact ih (hrest ▸ List.mem_cons_of_mem l0 h)

end UpdateRepo

namespace UpdateRepo

theorem trimLast_append_nil (L : List Str) : trimLast (L ++ [[]]) = L := by
  induction L with
  | nil => rfl
  | cons l ls ih =>
    cases ls with
    | nil => rfl
    | cons l2 ls2 =>
      have step : trimLast (l :: (l2 :: ls2 ++ [[]])) = l :: trimLast (l2 :: ls2 ++ [[]]) := by
        cases h : l2 :: ls2 ++ [[]] with
        | nil => cases h
        | cons a t =>
          cases t with
          | nil =>
            rcases ls2 with _ | ⟨x, xs⟩
            · cases h
            · cases h
          | cons b t2 => rfl
      rw [List.cons_append, step, ih]

theorem mem_of_mem_trimLast {L : List Str} {l : Str} (h : l ∈ trimLast L) : l ∈ L := by
  induction L with
  | nil => cases h
  | cons a ls ih =>
    cases ls with
    | nil =>
      by_cases ha : a = []
      · rw [ha] at h; simp [trimLast] at h
      · simp [trimLast, ha] at h; simp [h]
    | cons b ls2 =>
      rcases List.mem_cons.mp h with h | h
      · rw [h]; exact List.mem_cons_self a _
      · exact List.mem_cons_of_mem a (ih h)

theorem nlJoin_cons_cons (l b : Str) (ls : List Str) :
    nlJoin (l :: b :: ls) = l ++ '\n' :: nlJoin (b :: ls) := rfl

theorem nlJoin_append {A B : List Str} (hA : A ≠ []) (hB : B ≠ []) :
    nlJoin (A ++ B) = nlJoin A ++ '\n' :: nlJoin B := by
  induction A with
  | nil => exact absurd rfl hA
  | cons a t ih =>
    cases t with
    | nil =>
      cases B with
      | nil => exact absurd rfl hB
      | cons b bs => rw [List.singleton_append, nlJoin_cons_cons]; rfl
    | cons a2 t2 =>
      have e1 : nlJoin ((a :: a2 :: t2) ++ B) = a ++ '\n' :: nlJoin ((a2 :: t2) ++ B) := by
        rw [List.cons_append]
        exact nlJoin_cons_cons a a2 (t2 ++ B)
      rw [e1, ih (by simp), nlJoin_cons_cons]
      simp [List.append_assoc]

theorem splitlinesAux_nlJoin_append {P : List Str} (hP : ∀ l ∈ P, noB l) (hne : P ≠ [])
    (s : Str) : splitlinesAux (nlJoin P ++ '\n' :: s) = P ++ splitlinesAux s := by
  induction P with
  | nil => exact absurd rfl hne
  | cons a t ih =>
    cases t with
    | nil =>
      rw [show nlJoin [a] = a from rfl, splitlinesAux_line_append (hP a (List.mem_cons_self a _))]
      rfl
    | cons b t2 =>
      rw [nlJoin_cons_cons, List.append_assoc, List.cons_append]
      rw [splitlinesAux_line_append (hP a (List.mem_cons_self a _))]
      rw [ih (fun l hl => hP l (List.mem_cons_of_mem a hl)) (by simp)]
      rfl

theorem splitOnChar_ne_nil (c : Char) (s : Str) : splitOnChar c s ≠ [] := by
  induction s with
  | nil => simp [splitOnChar]
  | cons a t ih =>
    by_cases ha : a = c
    · simp [splitOnChar, ha]
    · rw [splitOnChar, if_neg ha]
      rcases h : splitOnChar c t with _ | ⟨l, ls⟩
      · exact absurd h ih
      · simp

theorem splitOnChar_not_mem {c : Char} {s : Str} (h : c ∉ s) : splitOnChar c s = [s] := by
  induction s with
  | nil => rfl
  | cons a t ih =>
    have ha : a ≠ c := fun he => h (he ▸ List.mem_cons_self a t)
    have ht : c ∉ t := fun hm => h (List.mem_cons_of_mem a hm)
    rw [splitOnChar, if_neg ha, ih ht]

theorem nlJoin_splitOnChar_nl (s : Str) : nlJoin (splitOnChar '\n' s) = s := by
  induction s with
  | nil => rfl
  | cons a t ih =>
    by_cases ha : a = '\n'
    · subst ha
      rw [splitOnChar, if_pos rfl]
      rcases h : splitOnChar '\n' t with _ | ⟨l, ls⟩
      · exact absurd h (splitOnChar_ne_nil _ _)
      · rw [nlJoin_cons_cons]
        rw [h] at ih
        rw [ih]
        rfl
    · rw [splitOnChar, if_neg ha]
      rcases h : splitOnChar '\n' t with _ | ⟨l, ls⟩
      · exact absurd h (splitOnChar_ne_nil _ _)
      · rw [h] at ih
        cases ls with
        | nil =>
          show a :: l = a :: t
          rw [show nlJoin [l] = l from rfl] at ih
          rw [ih]
        | cons l2 ls2 =>
          rw [nlJoin_cons_cons]
          rw [nlJoin_cons_cons] at ih
          show a :: (l ++ '\n' :: nlJoin (l2 :: ls2)) = a :: t
          rw [ih]

theorem strJoin_nil : strJoin [] = [] := rfl

theorem strJoin_cons (a : Str) (t : List Str) : strJoin (a :: t) = a ++ strJoin t := rfl

theorem strJoin_append (A B : List Str) : strJoin (A ++ B) = strJoin A ++ strJoin B := by
  induction A with
  | nil => rfl
  | cons a t ih => simp [strJoin_cons, ih, List.append_assoc]

end UpdateRepo

namespace UpdateRepo

theorem pyStrip_cons_space {c : Char} (hc : pyIsSpace c = true) (s : Str) :
    pyStrip (c :: s) = pyStrip s := by
  unfold pyStrip
  rw [List.dropWhile_cons_of_pos hc]

theorem dropWhile_eq_self_of_all {p : Char → Bool} {s : Str}
    (h : ∀ c ∈ s, p c = false) : s.dropWhile p = s := by
  cases s with
  | nil => rfl
  | cons c t => exact List.dropWhile_cons_of_neg (by rw [h c (List.mem_cons_self c t)]; simp)

theorem pyStrip_of_no_space {s : Str} (h : ∀ c ∈ s, pyIsSpace c = false) : pyStrip s = s := by
  unfold pyStrip
  rw [dropWhile_eq_self_of_all h,
    dropWhile_eq_self_of_all (fun c hc => h c (List.mem_reverse.mp hc))]
  try rw [List.reverse_reverse]

theorem pyStrip_length_le (s : Str) : (pyStrip s).length ≤ s.length := by
  unfold pyStrip
  rw [List.length_reverse]
  calc ((s.dropWhile pyIsSpace).reverse.dropWhile pyIsSpace).length
      ≤ (s.dropWhile pyIsSpace).reverse.length :=
        (List.dropWhile_sublist pyIsSpace).length_le
    _ = (s.dropWhile pyIsSpace).length := List.length_reverse _
    _ ≤ s.length := (List.dropWhile_sublist pyIsSpace).length_le

theorem not_space_head_of_pyStrip_fixed {c : Char} {s : Str} (h : pyStrip (c :: s) = c :: s) :
    pyIsSpace c = false := by
  by_contra hc
  rw [Bool.not_eq_false] at hc
  have he := pyStrip_cons_space hc s
  rw [h] at he
  have hlen := pyStrip_length_le s
  rw [← he] at hlen
  simp at hlen

theorem takeWhile_append_colon {k : Str} (hk : ':' ∉ k) (r : Str) :
    (k ++ ':' :: r).takeWhile (fun c => decide (c ≠ ':')) = k := by
  induction k with
  | nil => simp [List.takeWhile_cons]
  | cons a t ih =>
    have ha : a ≠ ':' := fun he => hk (he ▸ List.mem_cons_self a t)
    have ht : ':' ∉ t := fun hm => hk (List.mem_cons_of_mem a hm)
    rw [List.cons_append, List.takeWhile_cons, if_pos (by simp [ha]), ih ht]

theorem dropWhile_append_colon {k : Str} (hk : ':' ∉ k) (r : Str) :
    (k ++ ':' :: r).dropWhile (fun c => decide (c ≠ ':')) = ':' :: r := by
  induction k with
  | nil => simp [List.dropWhile_cons]
  | cons a t ih =>
    have ha : a ≠ ':' := fun he => hk (he ▸ List.mem_cons_self a t)
    have ht : ':' ∉ t := fun hm => hk (List.mem_cons_of_mem a hm)
    rw [List.cons_append, List.dropWhile_cons_of_pos (by simp [ha]), ih ht]

theorem digitChar_mem10 {m : Nat} (h : m < 10) : Nat.digitChar m ∈ str "0123456789" := by
  interval_cases m <;> decide

theorem toDigitsCore_sub : ∀ (f n : Nat) (ds : List Char),
    (∀ c ∈ ds, c ∈ str "0123456789") →
    ∀ c ∈ Nat.toDigitsCore 10 f n ds, c ∈ str "0123456789" := by
  intro f
  induction f with
  | zero =>
    intro n ds h c hc
    rw [Nat.toDigitsCore] at hc
    exact h c hc
  | succ f ih =>
    intro n ds h c hc
    rw [Nat.toDigitsCore] at hc
    have hds : ∀ d ∈ (Nat.digitChar (n % 10) :: ds), d ∈ str "0123456789" := by
      intro d hd
      rcases List.mem_cons.mp hd with hd | hd
      · rw [hd]; exact digitChar_mem10 (Nat.mod_lt n (by omega))
      · exact h d hd
    by_cases hb : n / 10 = 0
    · simp only [hb, if_pos] at hc
      exact hds c (by simpa using hc)
    · simp only [if_neg hb] at hc
      exact ih (n / 10) _ hds c hc

theorem natStr_mem (n : Nat) : ∀ c ∈ natStr n, c ∈ str "0123456789" := by
  intro c hc
  have he : natStr n = Nat.toDigitsCore 10 (n + 1) n [] := rfl
  rw [he] at hc
  exact toDigitsCore_sub (n + 1) n [] (by intro d hd; cases hd) c hc

theorem digits_plain :
    ∀ c ∈ str "0123456789", isLineBoundary c = false ∧ pyIsSpace c = false ∧ c ≠ ':' := by
  decide

theorem natStr_noB (n : Nat) : noB (natStr n) :=
  fun c hc => (digits_plain c (natStr_mem n c hc)).1

theorem natStr_no_space (n : Nat) : ∀ c ∈ natStr n, pyIsSpace c = false :=
  fun c hc => (digits_plain c (natStr_mem n c hc)).2.1

theorem natStr_no_colon (n : Nat) : ':' ∉ natStr n :=
  fun hc => (digits_plain ':' (natStr_mem n ':' hc)).2.2 rfl

theorem natStr_strip_fixed (n : Nat) : pyStrip (natStr n) = natStr n :=
  pyStrip_of_no_space (natStr_no_space n)

end UpdateRepo

namespace UpdateRepo

theorem fieldLines_ne_nil (kv : Field) : fieldLines kv ≠ [] := by
  unfold fieldLines
  rcases h : splitOnChar '\n' kv.2 with _ | ⟨p, ps⟩
  · exact absurd h (splitOnChar_ne_nil _ _)
  · simp

theorem nlJoin_fieldLines (kv : Field) : nlJoin (fieldLines kv) = renderLine kv := by
  unfold fieldLines renderLine
  rcases h : splitOnChar '\n' kv.2 with _ | ⟨p, ps⟩
  · exact absurd h (splitOnChar_ne_nil _ _)
  · have hj : nlJoin (p :: ps) = kv.2 := by rw [← h]; exact nlJoin_splitOnChar_nl kv.2
    cases ps with
    | nil =>
      show nlJoin [kv.1 ++ str ": " ++ p] = kv.1 ++ str ": " ++ kv.2
      have hp : nlJoin [p] = p := rfl
      rw [hp] at hj
      show kv.1 ++ str ": " ++ p = kv.1 ++ str ": " ++ kv.2
      rw [hj]
    | cons q qs =>
      show nlJoin ((kv.1 ++ str ": " ++ p) :: q :: qs) = kv.1 ++ str ": " ++ kv.2
      rw [nlJoin_cons_cons]
      rw [nlJoin_cons_cons] at hj
      rw [← hj]
      simp [List.append_assoc]

theorem fieldLines_single {kv : Field} (h : '\n' ∉ kv.2) : fieldLines kv = [renderLine kv] := by
  unfold fieldLines renderLine
  rw [splitOnChar_not_mem h]

theorem formatEntry_suffix (entries : List Field) (fn : Str) (sz : Nat) (m : Str) :
    ∃ pre, formatEntry entries fn sz m =
      pre ++ str "Filename: " ++ fn ++ str "\nSize: " ++ natStr sz ++
        str "\nMD5sum: " ++ m ++ str "\n\n" := by
  unfold formatEntry formatEntryFields
  rw [List.flatMap_append]
  have hFSM : ([(str "Filename", fn), (str "Size", natStr sz), (str "MD5sum", m)] :
      List Field).flatMap fieldLines =
      fieldLines (str "Filename", fn) ++
        (fieldLines (str "Size", natStr sz) ++ fieldLines (str "MD5sum", m)) := by
    simp [List.flatMap_cons, List.flatMap_nil]
  rw [hFSM]
  have hFSMne : fieldLines (str "Filename", fn) ++
      (fieldLines (str "Size", natStr sz) ++ fieldLines (str "MD5sum", m)) ≠ [] := by
    intro he
    exact fieldLines_ne_nil _ (List.append_eq_nil.mp he).1
  have e1 : str "Filename: " = str "Filename" ++ str ": " := by decide
  have e2 : str "\nSize: " = '\n' :: (str "Size" ++ str ": ") := by decide
  have e3 : str "\nMD5sum: " = '\n' :: (str "MD5sum" ++ str ": ") := by decide
  have h2 : nlJoin (fieldLines (str "Filename", fn) ++
      (fieldLines (str "Size", natStr sz) ++ fieldLines (str "MD5sum", m))) =
      str "Filename: " ++ fn ++ str "\nSize: " ++ natStr sz ++ str "\nMD5sum: " ++ m := by
    rw [nlJoin_append (fieldLines_ne_nil _)
      (fun he => fieldLines_ne_nil _ (List.append_eq_nil.mp he).1)]
    rw [nlJoin_append (fieldLines_ne_nil _) (fieldLines_ne_nil _)]
    rw [nlJoin_fieldLines, nlJoin_fieldLines, nlJoin_fieldLines]
    unfold renderLine
    rw [e1, e2, e3]
    simp [List.append_assoc]
  by_cases hA : (entries.filter (fun kv => decide (kv.1 ∉ fsmKeys))).flatMap fieldLines = []
  · refine ⟨[], ?_⟩
    rw [hA, List.nil_append, h2]
    simp [List.append_assoc]
  · refine ⟨nlJoin ((entries.filter (fun kv => decide (kv.1 ∉ fsmKeys))).flatMap fieldLines)
      ++ ['\n'], ?_⟩
    rw [nlJoin_append hA hFSMne, h2]
    simp [List.append_assoc]

end UpdateRepo

namespace UpdateRepo

theorem parseCore_cons_field {k v : Str} (hk1 : k ≠ []) (hk2 : pyStrip k = k)
    (hk3 : ':' ∉ k) (hv : pyStrip v = v) (rest : List Str) (last : Option Field) :
    parseCore ((k ++ str ": " ++ v) :: rest) last = (k, v) :: parseCore rest (some (k, v)) := by
  rcases k with _ | ⟨c, kt⟩
  · exact absurd rfl hk1
  have hsep : str ": " = [':', ' '] := by decide
  have hline : (c :: kt) ++ str ": " ++ v = c :: (kt ++ ':' :: ' ' :: v) := by
    rw [hsep]
    simp [List.append_assoc]
  rw [hline, parseCore]
  rw [if_neg (by simp)]
  have hcsp : pyIsSpace c = false := not_space_head_of_pyStrip_fixed hk2
  rw [if_neg (by
    intro hcon
    rcases hcon with ⟨h1, _⟩
    rw [List.headD_cons] at h1
    rw [hcsp] at h1
    cases h1)]
  rw [if_pos (by
    refine List.mem_cons_of_mem c ?_
    exact List.mem_append.mpr (Or.inr (List.mem_cons_self ':' _)))]
  have hsplit : c :: (kt ++ ':' :: ' ' :: v) = (c :: kt) ++ ':' :: (' ' :: v) := by simp
  have hkeq : pyStrip ((c :: (kt ++ ':' :: ' ' :: v)).takeWhile (fun x => decide (x ≠ ':')))
      = c :: kt := by
    rw [hsplit, takeWhile_append_colon hk3, hk2]
  have hveq : pyStrip (((c :: (kt ++ ':' :: ' ' :: v)).dropWhile (fun x => decide (x ≠ ':'))).tail)
      = v := by
    rw [hsplit, dropWhile_append_colon hk3, List.tail_cons,
      pyStrip_cons_space (by decide), hv]
  show (pyStrip ((c :: (kt ++ ':' :: ' ' :: v)).takeWhile (fun x => decide (x ≠ ':'))),
      pyStrip (((c :: (kt ++ ':' :: ' ' :: v)).dropWhile (fun x => decide (x ≠ ':'))).tail)) ::
      parseCore rest (some (pyStrip ((c :: (kt ++ ':' :: ' ' :: v)).takeWhile
          (fun x => decide (x ≠ ':'))),
        pyStrip (((c :: (kt ++ ':' :: ' ' :: v)).dropWhile (fun x => decide (x ≠ ':'))).tail))) =
      (c :: kt, v) :: parseCore rest (some (c :: kt, v))
  rw [hkeq, hveq]

theorem parseCore_map_renderLine (fs : List Field)
    (h : ∀ kv ∈ fs, goodKey kv.1 ∧ goodVal kv.2) (last : Option Field) :
    parseCore (fs.map renderLine) last = fs := by
  induction fs generalizing last with
  | nil => rfl
  | cons kv t ih =>
    obtain ⟨⟨hk1, hk2, hk3, _⟩, hv1, _⟩ := h kv (List.mem_cons_self kv t)
    rw [List.map_cons]
    show parseCore ((kv.1 ++ str ": " ++ kv.2) :: t.map renderLine) last = kv :: t
    rw [parseCore_cons_field hk1 hk2 hk3 hv1]
    rw [ih (fun x hx => h x (List.mem_cons_of_mem kv hx))]

theorem parseCore_append_empty (L : List Str) (last : Option Field) :
    parseCore (L ++ [[]]) last = parseCore L last := by
  induction L generalizing last with
  | nil => rfl
  | cons l t ih =>
    rw [List.cons_append, parseCore, parseCore]
    by_cases h1 : l = []
    · rw [if_pos h1, if_pos h1, ih]
    · rw [if_neg h1, if_neg h1]
      by_cases h2 : (pyIsSpace (l.headD ' ') ∧ last.isSome)
      · rw [if_pos h2, if_pos h2, ih]
      · rw [if_neg h2, if_neg h2]
        by_cases h3 : ':' ∈ l
        · rw [if_pos h3, if_pos h3]
          simp only [ih]
        · rw [if_neg h3, if_neg h3, ih]

end UpdateRepo

namespace UpdateRepo

theorem mapM_ok_of_forall {α β : Type} (g : α → Except Str β) (hfun : α → β) :
    ∀ (L : List α), (∀ f ∈ L, g f = .ok (hfun f)) → L.mapM g = .ok (L.map hfun) := by
  intro L
  induction L with
  | nil => intro _; rfl
  | cons a t ih =>
    intro h
    rw [List.mapM_cons, h a (List.mem_cons_self a t),
      ih (fun x hx => h x (List.mem_cons_of_mem a hx))]
    rfl

theorem buildPackages_ok (dir : List DebFile) (md5 : List Nat → Str)
    (ctrl : DebFile → List Field)
    (h : ∀ f ∈ sortedDebs dir, extractControlFields f.archive = .ok (ctrl f)) :
    buildPackages dir md5 =
      .ok (strJoin ((sortedDebs dir).map (fun f => debEntry md5 (ctrl f) f))) := by
  unfold buildPackages
  rw [mapM_ok_of_forall
    (fun f => (extractControlFields f.archive).map (fun cf => debEntry md5 cf f))
    (fun f => debEntry md5 (ctrl f) f) (sortedDebs dir)
    (fun f hf => by dsimp only; rw [h f hf]; rfl)]
  rfl

theorem sortedDebs_perm (dir : List DebFile) :
    (sortedDebs dir).Perm (dir.filter (fun f => decide (pySuffix f.name = str ".deb"))) :=
  List.perm_insertionSort debLe _

theorem sortedDebs_sorted (dir : List DebFile) : List.Pairwise debLe (sortedDebs dir) :=
  List.sorted_insertionSort debLe _

theorem endsWith_of_pySuffix_deb {name : Str} (h : pySuffix name = str ".deb") :
    (str ".deb").isSuffixOf name = true := by
  unfold pySuffix at h
  rcases hf : name.reverse.findIdx? (fun c => decide (c = '.')) with _ | j
  · rw [hf] at h
    dsimp only at h
    exact absurd h (by decide)
  · rw [hf] at h
    dsimp only at h
    by_cases hcond : 0 < name.length - 1 - j ∧ name.length - 1 - j < name.length - 1
    · rw [if_pos hcond] at h
      have hsuf : name.drop (name.length - 1 - j) <:+ name := List.drop_suffix _ _
      rw [h] at hsuf
      exact List.isSuffixOf_iff_suffix.mpr hsuf
    · rw [if_neg hcond] at h
      exact absurd h (by decide)

theorem sortedDebs_filter_ends (dir : List DebFile) :
    sortedDebs (dir.filter (fun f => (str ".deb").isSuffixOf f.name)) = sortedDebs dir := by
  unfold sortedDebs
  rw [List.filter_filter]
  have he : dir.filter
      (fun a => decide (pySuffix a.name = str ".deb") && (str ".deb").isSuffixOf a.name) =
      dir.filter (fun f => decide (pySuffix f.name = str ".deb")) := by
    refine List.filter_congr ?_
    intro f _
    by_cases hp : pySuffix f.name = str ".deb"
    · rw [decide_eq_true hp, endsWith_of_pySuffix_deb hp]
      rfl
    · rw [decide_eq_false hp]
      rfl
  rw [he]

end UpdateRepo

namespace UpdateRepo

theorem noB_append {a b : Str} (ha : noB a) (hb : noB b) : noB (a ++ b) :=
  fun c hc => (List.mem_append.mp hc).elim (ha c) (hb c)

theorem noB_pkgLine (pc : Str) (md5 : List Nat → Str) (h1 : noB (md5 (utf8Encode pc))) :
    noB (pkgLine pc md5) := by
  unfold pkgLine
  exact noB_append (noB_append (noB_append (noB_append (by decide) h1) (by decide))
    (natStr_noB _)) (by decide)

theorem noB_bz2Line (bz : List Nat) (md5 : List Nat → Str) (h2 : noB (md5 bz)) :
    noB (bz2Line bz md5) := by
  unfold bz2Line
  exact noB_append (noB_append (noB_append (noB_append (by decide) h2) (by decide))
    (natStr_noB _)) (by decide)

theorem header_take_eq (L : List Str) (i : Nat)
    (hidx : idxOfExact (str "MD5Sum:") (buildHeader L) = some i) :
    (buildHeader L).take i = L.takeWhile (fun l => !(decide (pyStrip l = str "MD5Sum:"))) := by
  induction L generalizing i with
  | nil =>
    simp [buildHeader, idxOfExact] at hidx
    rw [← hidx]
    rfl
  | cons l rest ih =>
    by_cases hm : pyStrip l = str "MD5Sum:"
    · rw [buildHeader, if_pos hm] at hidx
      by_cases hex : l = str "MD5Sum:"
      · rw [idxOfExact, if_pos hex] at hidx
        have hi : i = 0 := by
          injection hidx with hv
          omega
        subst hi
        rw [List.take_zero, List.takeWhile_cons, if_neg (by simp [hm])]
      · rw [idxOfExact, if_neg hex] at hidx
        simp [idxOfExact] at hidx
    · rw [buildHeader, if_neg hm] at hidx
      have hex : l ≠ str "MD5Sum:" := fun he => hm (by rw [he]; decide)
      rw [idxOfExact, if_neg hex] at hidx
      rcases ho : idxOfExact (str "MD5Sum:") (buildHeader rest) with _ | j
      · rw [ho] at hidx
        cases hidx
      · rw [ho] at hidx
        have hi : i = j + 1 := by
          simp at hidx
          omega
        subst hi
        rw [buildHeader, if_neg hm, List.take_succ_cons, ih j ho, List.takeWhile_cons,
          if_pos (by simp [hm])]

theorem updateRelease_some_eq {t pc : Str} {bz : List Nat} {md5 : List Nat → Str} {out : Str}
    (h : updateRelease t pc bz md5 = some out) :
    out = nlJoin ((pySplitlines t).takeWhile (fun l => !(decide (pyStrip l = str "MD5Sum:")))) ++
      str "\nMD5Sum:\n" ++ mdBlock pc bz md5 := by
  unfold updateRelease at h
  dsimp only at h
  rcases ho : idxOfExact (str "MD5Sum:") (buildHeader (pySplitlines t)) with _ | i
  · rw [ho] at h
    cases h
  · rw [ho] at h
    injection h with h
    rw [← h, header_take_eq _ i ho]

theorem updateRelease_lines {t pc : Str} {bz : List Nat} {md5 : List Nat → Str} {out : Str}
    (h : updateRelease t pc bz md5 = some out)
    (h1 : noB (md5 (utf8Encode pc))) (h2 : noB (md5 bz)) :
    pySplitlines out =
      (pySplitlines t).takeWhile (fun l => !(decide (pyStrip l = str "MD5Sum:"))) ++
      (if (pySplitlines t).takeWhile (fun l => !(decide (pyStrip l = str "MD5Sum:"))) = []
        then [([] : Str)] else []) ++
      [str "MD5Sum:", pkgLine pc md5, bz2Line bz md5] := by
  have hshape : nlJoin ((pySplitlines t).takeWhile
        (fun l => !(decide (pyStrip l = str "MD5Sum:")))) ++
      str "\nMD5Sum:\n" ++ mdBlock pc bz md5 =
      nlJoin ((pySplitlines t).takeWhile (fun l => !(decide (pyStrip l = str "MD5Sum:")))) ++
        '\n' :: (str "MD5Sum:" ++ '\n' ::
          (pkgLine pc md5 ++ '\n' :: (bz2Line bz md5 ++ ['\n']))) := by
    unfold mdBlock
    have e1 : str "\nMD5Sum:\n" = '\n' :: (str "MD5Sum:" ++ ['\n']) := by decide
    have e2 : str "\n" = ['\n'] := by decide
    rw [e1, e2]
    simp [List.append_assoc]
  have hTail : splitlinesAux (str "MD5Sum:" ++ '\n' ::
        (pkgLine pc md5 ++ '\n' :: (bz2Line bz md5 ++ ['\n']))) =
      [str "MD5Sum:", pkgLine pc md5, bz2Line bz md5, []] := by
    rw [splitlinesAux_line_append (by decide)]
    rw [splitlinesAux_line_append (noB_pkgLine pc md5 h1)]
    rw [show (bz2Line bz md5 ++ ['\n']) = bz2Line bz md5 ++ '\n' :: [] from rfl]
    rw [splitlinesAux_line_append (noB_bz2Line bz md5 h2)]
    rfl
  have hPsub : ∀ l ∈ (pySplitlines t).takeWhile (fun l => !(decide (pyStrip l = str "MD5Sum:"))),
      noB l := by
    intro l hl
    have hl2 : l ∈ pySplitlines t := (List.takeWhile_sublist _).subset hl
    exact noB_of_mem_splitlinesAux (mem_of_mem_trimLast hl2)
  rw [updateRelease_some_eq h, hshape]
  rw [show ∀ X : Str, pySplitlines X = trimLast (splitlinesAux X) from fun _ => rfl]
  by_cases hP : (pySplitlines t).takeWhile (fun l => !(decide (pyStrip l = str "MD5Sum:"))) = []
  · rw [hP, if_pos rfl]
    show trimLast (splitlinesAux ('\n' :: (str "MD5Sum:" ++ '\n' ::
      (pkgLine pc md5 ++ '\n' :: (bz2Line bz md5 ++ ['\n']))))) = _
    rw [show splitlinesAux ('\n' :: (str "MD5Sum:" ++ '\n' ::
        (pkgLine pc md5 ++ '\n' :: (bz2Line bz md5 ++ ['\n'])))) =
      [] :: splitlinesAux (str "MD5Sum:" ++ '\n' ::
        (pkgLine pc md5 ++ '\n' :: (bz2Line bz md5 ++ ['\n']))) from rfl]
    rw [hTail]
    rw [show ([] :: [str "MD5Sum:", pkgLine pc md5, bz2Line bz md5, []] :
        List Str) =
      ([[], str "MD5Sum:", pkgLine pc md5, bz2Line bz md5] : List Str) ++ [[]] from rfl]
    rw [trimLast_append_nil]
    rfl
  · rw [if_neg hP]
    rw [splitlinesAux_nlJoin_append hPsub hP]
    rw [hTail]
    rw [show (pySplitlines t).takeWhile (fun l => !(decide (pyStrip l = str "MD5Sum:"))) ++
        [str "MD5Sum:", pkgLine pc md5, bz2Line bz md5, []] =
      ((pySplitlines t).takeWhile (fun l => !(decide (pyStrip l = str "MD5Sum:"))) ++
        [str "MD5Sum:", pkgLine pc md5, bz2Line bz md5]) ++ [[]] by
        simp [List.append_assoc]]
    rw [trimLast_append_nil]
    simp

end UpdateRepo

namespace UpdateRepo

theorem noB_renderLine {kv : Field} (hk : noB kv.1) (hv : noB kv.2) : noB (renderLine kv) := by
  unfold renderLine
  exact noB_append (noB_append hk (by decide)) hv

theorem flatMap_eq_map_of_singleton {α β : Type} (f : α → List β) (g : α → β) :
    ∀ (L : List α), (∀ x ∈ L, f x = [g x]) → L.flatMap f = L.map g := by
  intro L
  induction L with
  | nil => intro _; rfl
  | cons a t ih =>
    intro h
    rw [List.flatMap_cons, h a (List.mem_cons_self a t),
      ih (fun x hx => h x (List.mem_cons_of_mem a hx)), List.map_cons]
    rfl

/-- C3: the field parser of `extract_control_fields` does NOT append
continuation lines to the previously parsed value: line 41 stores
`tuple(last)`, an immutable snapshot taken before line 35 ever mutates
`last`, so for the control text `"A: x\n y"` the returned value is `"x"`,
not the `"x\n y"` the claim describes. -/
theorem claim3_continuation_lines_lost :
    parseControl (str "A: x\n y") = [(str "A", str "x")] ∧
    parseControl (str "A: x\n y") ≠ [(str "A", str "x\n y")] :=
  ⟨by decide, by decide⟩

/-- C7: `build_packages` ignores every directory entry whose name does not
end in ".deb" (its suffix then differs from ".deb"): restricting the
directory to the entries ending in ".deb" leaves the whole result unchanged,
so no other entry is read or contributes an index entry. -/
theorem claim7_non_deb_entries_ignored (dir : List DebFile) (md5 : List Nat → Str) :
    buildPackages (dir.filter (fun f => (str ".deb").isSuffixOf f.name)) md5 =
      buildPackages dir md5 := by
  unfold buildPackages
  rw [sortedDebs_filter_ends]

/-- C9: `format_entry` drops every input field keyed Filename, Size or
MD5sum, keeps exactly the other input fields, and ends the field list with
Filename, Size and MD5sum holding the argument values, in that order; the
rendered entry is the rendering of exactly that list. -/
theorem claim9_fsm_fields_replaced (entries : List Field) (fn : Str) (sz : Nat) (m : Str) :
    ∃ pre, formatEntryFields entries fn sz m =
        pre ++ [(str "Filename", fn), (str "Size", natStr sz), (str "MD5sum", m)] ∧
      (∀ kv ∈ pre, kv ∈ entries ∧ kv.1 ≠ str "Filename" ∧ kv.1 ≠ str "Size" ∧
        kv.1 ≠ str "MD5sum") ∧
      (∀ kv ∈ entries, kv.1 ≠ str "Filename" → kv.1 ≠ str "Size" →
        kv.1 ≠ str "MD5sum" → kv ∈ pre) ∧
      formatEntry entries fn sz m =
        nlJoin ((pre ++ [(str "Filename", fn), (str "Size", natStr sz),
          (str "MD5sum", m)]).flatMap fieldLines) ++ str "\n\n" := by
  refine ⟨entries.filter (fun kv => decide (kv.1 ∉ fsmKeys)), rfl, ?_, ?_, rfl⟩
  · intro kv hkv
    obtain ⟨hin, hdec⟩ := List.mem_filter.mp hkv
    have hnot : kv.1 ∉ fsmKeys := of_decide_eq_true hdec
    refine ⟨hin, ?_, ?_, ?_⟩
    · intro he; exact hnot (by rw [he]; exact List.mem_cons_self _ _)
    · intro he; exact hnot (by rw [he]; unfold fsmKeys; simp)
    · intro he; exact hnot (by rw [he]; unfold fsmKeys; simp)
  · intro kv hin h1 h2 h3
    refine List.mem_filter.mpr ⟨hin, decide_eq_true ?_⟩
    intro hmem
    unfold fsmKeys at hmem
    rcases List.mem_cons.mp hmem with h | hmem
    · exact h1 h
    · rcases List.mem_cons.mp hmem with h | hmem
      · exact h2 h
      · rcases List.mem_cons.mp hmem with h | hmem
        · exact h3 h
        · cases hmem

/-- C10 (counterexample): the round trip fails as stated: for the single
field ("A", " a") — whose value has no empty lines and no continuation
lines — the parser strips the leading space that `format_entry` placed after
the colon together with the value's own leading space, returning value "a",
not " a". -/
theorem claim10_roundtrip_fails :
    parseControl (formatEntry [(str "A", str " a")] (str "f") 0 (str "d")) =
      [(str "A", str "a"), (str "Filename", str "f"), (str "Size", str "0"),
        (str "MD5sum", str "d")] ∧
    parseControl (formatEntry [(str "A", str " a")] (str "f") 0 (str "d")) ≠
      [(str "A", str " a"), (str "Filename", str "f"), (str "Size", str "0"),
        (str "MD5sum", str "d")] :=
  ⟨by decide, by decide⟩

/-- C10 (amended): the round trip holds for field lists whose keys are
non-empty, colon-free, free of line boundaries and fixed by strip, and whose
values — like the filename and digest arguments — are single-line (no line
boundary characters) and fixed by strip: parsing the formatted entry returns
exactly the non-Filename/Size/MD5sum input fields followed by the three
argument fields. -/
theorem claim10_roundtrip_amended (entries : List Field) (fn : Str) (sz : Nat) (m : Str)
    (hk : ∀ kv ∈ entries, goodKey kv.1 ∧ goodVal kv.2)
    (hfn : goodVal fn) (hm : goodVal m) :
    parseControl (formatEntry entries fn sz m) =
      entries.filter (fun kv => decide (kv.1 ∉ fsmKeys)) ++
        [(str "Filename", fn), (str "Size", natStr sz), (str "MD5sum", m)] := by
  have hall : ∀ kv ∈ formatEntryFields entries fn sz m, goodKey kv.1 ∧ goodVal kv.2 := by
    intro kv hkv
    unfold formatEntryFields at hkv
    rcases List.mem_append.mp hkv with hkv | hkv
    · exact hk kv (List.mem_filter.mp hkv).1
    · rcases List.mem_cons.mp hkv with h | hkv
      · subst h; exact ⟨(by decide : goodKey (str "Filename")), hfn⟩
      · rcases List.mem_cons.mp hkv with h | hkv
        · subst h; exact ⟨(by decide : goodKey (str "Size")), natStr_strip_fixed sz, natStr_noB sz⟩
        · rcases List.mem_cons.mp hkv with h | hkv
          · subst h; exact ⟨(by decide : goodKey (str "MD5sum")), hm⟩
          · cases hkv
  have hnil : formatEntryFields entries fn sz m ≠ [] := by
    unfold formatEntryFields
    simp
  have hflat : (formatEntryFields entries fn sz m).flatMap fieldLines =
      (formatEntryFields entries fn sz m).map renderLine := by
    refine flatMap_eq_map_of_singleton _ _ _ ?_
    intro kv hkv
    refine fieldLines_single ?_
    intro hmem
    exact absurd ((hall kv hkv).2.2 '\n' hmem) (by decide)
  have hlines_noB : ∀ l ∈ (formatEntryFields entries fn sz m).map renderLine, noB l := by
    intro l hl
    obtain ⟨kv, hkv, he⟩ := List.mem_map.mp hl
    obtain ⟨⟨_, _, _, hkB⟩, _, hvB⟩ := hall kv hkv
    rw [← he]
    exact noB_renderLine hkB hvB
  have hmapne : (formatEntryFields entries fn sz m).map renderLine ≠ [] := by
    intro he
    exact hnil (List.map_eq_nil_iff.mp he)
  unfold parseControl formatEntry
  rw [hflat, show str "\n\n" = '\n' :: ('\n' :: []) from by decide]
  rw [show ∀ X : Str, pySplitlines X = trimLast (splitlinesAux X) from fun _ => rfl]
  rw [splitlinesAux_nlJoin_append hlines_noB hmapne]
  rw [show splitlinesAux ('\n' :: ([] : Str)) = [[], []] from rfl]
  rw [show (formatEntryFields entries fn sz m).map renderLine ++ [[], []] =
    ((formatEntryFields entries fn sz m).map renderLine ++ [[]]) ++ [[]] by simp]
  rw [trimLast_append_nil, parseCore_append_empty, parseCore_map_renderLine _ hall]
  rfl

end UpdateRepo

namespace UpdateRepo

/-- C1: when every selected deb's control fields extract successfully, the
index built by `build_packages` contains, for each file `f` of the debs
directory with suffix ".deb", an entry whose final three lines record
`Filename: debs/<name>`, `Size: <exact byte count of f>` and `MD5sum:
<digest of f's bytes>`, each terminated by a newline and followed by the
blank line ending the entry. -/
theorem claim1_entry_records_size_md5_filename (dir : List DebFile) (md5 : List Nat → Str)
    (ctrl : DebFile → List Field)
    (h : ∀ f ∈ sortedDebs dir, extractControlFields f.archive = .ok (ctrl f))
    (f : DebFile) (hf : f ∈ sortedDebs dir) :
    ∃ before entryPre after,
      buildPackages dir md5 = .ok (before ++
        (entryPre ++ str "Filename: " ++ (str "debs/" ++ f.name) ++
          str "\nSize: " ++ natStr f.data.length ++
          str "\nMD5sum: " ++ md5 f.data ++ str "\n\n") ++ after) := by
  obtain ⟨s1, s2, hsplit⟩ := List.append_of_mem hf
  rw [buildPackages_ok dir md5 ctrl h]
  obtain ⟨pre, hpre⟩ :=
    formatEntry_suffix (ctrl f) (str "debs/" ++ f.name) f.data.length (md5 f.data)
  refine ⟨strJoin (s1.map (fun g => debEntry md5 (ctrl g) g)), pre,
    strJoin (s2.map (fun g => debEntry md5 (ctrl g) g)), ?_⟩
  rw [hsplit, List.map_append, List.map_cons, strJoin_append, strJoin_cons]
  refine congrArg Except.ok ?_
  rw [show debEntry md5 (ctrl f) f =
    formatEntry (ctrl f) (str "debs/" ++ f.name) f.data.length (md5 f.data) from rfl, hpre]
  simp [List.append_assoc]

/-- C2: when every selected deb's control fields extract successfully, the
Packages content is the concatenation of the formatted entries of exactly
the directory entries whose suffix is ".deb", taken in sorted (name) order,
each entry ending with a blank line. -/
theorem claim2_index_is_sorted_concat (dir : List DebFile) (md5 : List Nat → Str)
    (ctrl : DebFile → List Field)
    (h : ∀ f ∈ sortedDebs dir, extractControlFields f.archive = .ok (ctrl f)) :
    ∃ L : List DebFile,
      L.Perm (dir.filter (fun f => decide (pySuffix f.name = str ".deb"))) ∧
      List.Pairwise (fun a b => strLe a.name b.name = true) L ∧
      buildPackages dir md5 = .ok (strJoin (L.map (fun f =>
        formatEntry (ctrl f) (str "debs/" ++ f.name) f.data.length (md5 f.data)))) ∧
      ∀ f ∈ L, (str "\n\n").isSuffixOf
        (formatEntry (ctrl f) (str "debs/" ++ f.name) f.data.length (md5 f.data)) := by
  refine ⟨sortedDebs dir, sortedDebs_perm dir, sortedDebs_sorted dir,
    buildPackages_ok dir md5 ctrl h, ?_⟩
  intro f hf
  rw [List.isSuffixOf_iff_suffix]
  exact ⟨nlJoin ((formatEntryFields (ctrl f) (str "debs/" ++ f.name) f.data.length
    (md5 f.data)).flatMap fieldLines), rfl⟩

end UpdateRepo

namespace UpdateRepo

/-- C4: when `update_release` completes, the rewritten manifest holds, right
after an `MD5Sum:` header line, a line with the MD5 digest and byte length
of the UTF-8 encoded Packages content, then a line with the MD5 digest and
byte count of the Packages.bz2 file — all recomputed from those contents
(the digests are assumed single-line, as hex digests are). -/
theorem claim4_release_records_fresh_checksums (t pc : Str) (bz : List Nat)
    (md5 : List Nat → Str) (out : Str)
    (h : updateRelease t pc bz md5 = some out)
    (h1 : noB (md5 (utf8Encode pc))) (h2 : noB (md5 bz)) :
    ∃ pre, pySplitlines out = pre ++ [str "MD5Sum:",
      str " " ++ md5 (utf8Encode pc) ++ str " " ++ natStr (utf8Encode pc).length ++
        str " Packages",
      str " " ++ md5 bz ++ str " " ++ natStr bz.length ++ str " Packages.bz2"] := by
  refine ⟨(pySplitlines t).takeWhile (fun l => !(decide (pyStrip l = str "MD5Sum:"))) ++
    (if (pySplitlines t).takeWhile (fun l => !(decide (pyStrip l = str "MD5Sum:"))) = []
      then [([] : Str)] else []), ?_⟩
  rw [updateRelease_lines h h1 h2]
  rw [show pkgLine pc md5 = str " " ++ md5 (utf8Encode pc) ++ str " " ++
    natStr (utf8Encode pc).length ++ str " Packages" from rfl]
  rw [show bz2Line bz md5 = str " " ++ md5 bz ++ str " " ++ natStr bz.length ++
    str " Packages.bz2" from rfl]

/-- C5 (counterexample): `update_release` discards manifest lines that are
not the Packages / Packages.bz2 checksum lines: in a Release file whose
MD5Sum block also lists " cccc 3 Other", that line is present in the
original but absent from the rewritten manifest. -/
theorem claim5_drops_unrelated_lines :
    (str " cccc 3 Other") ∈ pySplitlines
      (str "Origin: X\nMD5Sum:\n aaaa 1 Packages\n bbbb 2 Packages.bz2\n cccc 3 Other\n") ∧
    (updateRelease
      (str "Origin: X\nMD5Sum:\n aaaa 1 Packages\n bbbb 2 Packages.bz2\n cccc 3 Other\n")
      (str "P") [7] md5c).isSome = true ∧
    (str " cccc 3 Other") ∉ pySplitlines ((updateRelease
      (str "Origin: X\nMD5Sum:\n aaaa 1 Packages\n bbbb 2 Packages.bz2\n cccc 3 Other\n")
      (str "P") [7] md5c).getD []) := by
  refine ⟨by decide, by decide, by decide⟩

/-- C5 (amended): `update_release` keeps unchanged exactly the original
manifest lines before the first line whose stripped text is `MD5Sum:`, then
writes the `MD5Sum:` header and the two freshly computed checksum lines, and
drops every other original line (the old checksum block and anything after
it); when the header is the manifest's first line an extra blank line
precedes it. -/
theorem claim5_rewrite_frame (t pc : Str) (bz : List Nat) (md5 : List Nat → Str) (out : Str)
    (h : updateRelease t pc bz md5 = some out)
    (h1 : noB (md5 (utf8Encode pc))) (h2 : noB (md5 bz)) :
    pySplitlines out =
      (pySplitlines t).takeWhile (fun l => !(decide (pyStrip l = str "MD5Sum:"))) ++
      (if (pySplitlines t).takeWhile (fun l => !(decide (pyStrip l = str "MD5Sum:"))) = []
        then [([] : Str)] else []) ++
      [str "MD5Sum:", pkgLine pc md5, bz2Line bz md5] :=
  updateRelease_lines h h1 h2

/-- C6: the bytes written to Packages.bz2 are exactly the compressor applied
to the UTF-8 bytes written to Packages, so any decompressor inverting the
compressor recovers the Packages file's bytes from Packages.bz2. -/
theorem claim6_bz2_matches_packages (dir : List DebFile) (rel : Str)
    (md5 : List Nat → Str) (compress : List Nat → List Nat) (out : MainOut)
    (h : runMain dir rel md5 compress = .ok out) :
    out.packagesBz2Bytes = compress out.packagesBytes ∧
    (∀ decompress : List Nat → List Nat,
      (∀ bs, decompress (compress bs) = bs) →
      decompress out.packagesBz2Bytes = out.packagesBytes) := by
  unfold runMain at h
  rcases hb : buildPackages dir md5 with e | pc
  · rw [hb] at h
    cases h
  · rw [hb] at h
    dsimp only at h
    rcases hu : updateRelease rel pc (compress (utf8Encode pc)) md5 with _ | r
    · rw [hu] at h
      cases h
    · rw [hu] at h
      injection h with h
      rw [← h]
      exact ⟨rfl, fun dec hinv => hinv (utf8Encode pc)⟩

/-- C8: `extract_control_fields` reports an error exactly when the ar
listing has no member whose name starts with "control.tar.", or the
selected control tarball has no regular-file member with basename
"control"; otherwise it returns the parsed fields of the selected control
member's text. -/
theorem claim8_error_exactly_when (deb : DebArchive) :
    ((∃ e, extractControlFields deb = .error e) ↔
      ((∀ n ∈ deb.listing, ¬ ((str "control.tar.").isPrefixOf n = true)) ∨
        (∃ cm, deb.listing.find? (fun n => (str "control.tar.").isPrefixOf n) = some cm ∧
          ∀ m ∈ ((deb.tars.find? (fun p => decide (p.1 = cm))).map Prod.snd).getD [],
            ¬ (m.isFile = true ∧ lastComponent m.name = str "control")))) ∧
    (∀ fields, extractControlFields deb = .ok fields →
      ∃ cm mem,
        deb.listing.find? (fun n => (str "control.tar.").isPrefixOf n) = some cm ∧
        mem ∈ ((deb.tars.find? (fun p => decide (p.1 = cm))).map Prod.snd).getD [] ∧
        mem.isFile = true ∧ lastComponent mem.name = str "control" ∧
        fields = parseControl mem.content) := by
  unfold extractControlFields
  rcases hfind : deb.listing.find? (fun n => (str "control.tar.").isPrefixOf n) with _ | cm
  · constructor
    · constructor
      · intro _
        exact Or.inl (fun n hn hp => (List.find?_eq_none.mp hfind n hn) hp)
      · intro _
        exact ⟨str "No control.tar.* found", rfl⟩
    · intro fields hf
      cases hf
  · dsimp only
    rcases hmem : (((deb.tars.find? (fun p => decide (p.1 = cm))).map Prod.snd).getD []).find?
        (fun m => m.isFile && decide (lastComponent m.name = str "control")) with _ | mem
    · rw [hmem]
      constructor
      · constructor
        · intro _
          refine Or.inr ⟨cm, rfl, ?_⟩
          intro m hm hcon
          have := List.find?_eq_none.mp hmem m hm
          rw [hcon.1, decide_eq_true hcon.2] at this
          exact this rfl
        · intro _
          exact ⟨str "control file not found", rfl⟩
      · intro fields hf
        cases hf
    · rw [hmem]
      have hpred := List.find?_some hmem
      have hin := List.mem_of_find?_eq_some hmem
      rw [Bool.and_eq_true, decide_eq_true_eq] at hpred
      constructor
      · constructor
        · intro hcon
          obtain ⟨e, he⟩ := hcon
          cases he
        · intro hcon
          rcases hcon with hnone | ⟨cm2, hcm2, hall⟩
          · have hpcm := List.find?_some hfind
            have hincm := List.mem_of_find?_eq_some hfind
            exact absurd hpcm (by
              intro hp
              exact hnone cm hincm hp)
          · have hcms : cm2 = cm := by
              injection hcm2 with hv
              rw [hv]
            rw [hcms] at hall
            exact (hall mem hin ⟨hpred.1, hpred.2⟩).elim
      · intro fields hf
        injection hf with hv
        exact ⟨cm, mem, rfl, hin, hpred.1, hpred.2, hv.symm⟩

end UpdateRepo

namespace UpdateRepo

theorem claim1_witness :
    ∃ before entryPre after,
      buildPackages sampleDir md5len = .ok (before ++
        (entryPre ++ str "Filename: " ++ (str "debs/" ++ sampleA.name) ++
          str "\nSize: " ++ natStr sampleA.data.length ++
          str "\nMD5sum: " ++ md5len sampleA.data ++ str "\n\n") ++ after) :=
  claim1_entry_records_size_md5_filename sampleDir md5len sampleCtrl (by decide)
    sampleA (by decide)

theorem claim2_witness :
    ∃ L : List DebFile,
      L.Perm (sampleDir.filter (fun f => decide (pySuffix f.name = str ".deb"))) ∧
      List.Pairwise (fun a b => strLe a.name b.name = true) L ∧
      buildPackages sampleDir md5len = .ok (strJoin (L.map (fun f =>
        formatEntry (sampleCtrl f) (str "debs/" ++ f.name) f.data.length (md5len f.data)))) ∧
      ∀ f ∈ L, (str "\n\n").isSuffixOf
        (formatEntry (sampleCtrl f) (str "debs/" ++ f.name) f.data.length (md5len f.data)) :=
  claim2_index_is_sorted_concat sampleDir md5len sampleCtrl (by decide)

theorem claim4_witness :
    ∃ pre, pySplitlines ((updateRelease (str "Origin: X\nMD5Sum:\n junk\n") (str "P") [7]
        md5c).getD []) = pre ++ [str "MD5Sum:",
      str " " ++ md5c (utf8Encode (str "P")) ++ str " " ++
        natStr (utf8Encode (str "P")).length ++ str " Packages",
      str " " ++ md5c [7] ++ str " " ++ natStr ([7] : List Nat).length ++
        str " Packages.bz2"] :=
  claim4_release_records_fresh_checksums (str "Origin: X\nMD5Sum:\n junk\n") (str "P") [7]
    md5c ((updateRelease (str "Origin: X\nMD5Sum:\n junk\n") (str "P") [7] md5c).getD [])
    (by decide) (by decide) (by decide)

theorem claim5_witness :
    pySplitlines ((updateRelease (str "Origin: X\nMD5Sum:\n old\n") (str "P") [7]
        md5c).getD []) =
      (pySplitlines (str "Origin: X\nMD5Sum:\n old\n")).takeWhile
        (fun l => !(decide (pyStrip l = str "MD5Sum:"))) ++
      (if (pySplitlines (str "Origin: X\nMD5Sum:\n old\n")).takeWhile
          (fun l => !(decide (pyStrip l = str "MD5Sum:"))) = [] then [([] : Str)] else []) ++
      [str "MD5Sum:", pkgLine (str "P") md5c, bz2Line [7] md5c] :=
  claim5_rewrite_frame (str "Origin: X\nMD5Sum:\n old\n") (str "P") [7] md5c
    ((updateRelease (str "Origin: X\nMD5Sum:\n old\n") (str "P") [7] md5c).getD [])
    (by decide) (by decide) (by decide)

theorem claim6_witness :
    sampleMainOut.packagesBz2Bytes = sampleCompress sampleMainOut.packagesBytes ∧
    (∀ decompress : List Nat → List Nat,
      (∀ bs, decompress (sampleCompress bs) = bs) →
      decompress sampleMainOut.packagesBz2Bytes = sampleMainOut.packagesBytes) :=
  claim6_bz2_matches_packages sampleDir (str "Origin: X\nMD5Sum:\n") md5len sampleCompress
    sampleMainOut (by decide)

theorem claim10_witness :
    parseControl (formatEntry [(str "Package", str "foo")] (str "debs/a.deb") 3
        (str "0a1b")) =
      ([(str "Package", str "foo")] : List Field).filter
        (fun kv => decide (kv.1 ∉ fsmKeys)) ++
        [(str "Filename", str "debs/a.deb"), (str "Size", natStr 3),
          (str "MD5sum", str "0a1b")] :=
  claim10_roundtrip_amended [(str "Package", str "foo")] (str "debs/a.deb") 3 (str "0a1b")
    (by decide) (by decide) (by decide)

end UpdateRepo
